import Mathlib

/-!
Shallow embedding of the stock_theme_extractor theme-extraction core
(src/stock_themes): models, taxonomy normalizer, the individual extractors
and the ensemble merger/ranker.  Python floats are embedded as exact
rationals; Python round(x, 3) is embedded as round-half-to-even at three
decimal places.  The static data tables that ship as JSON next to the code
(SIC, CPC and GDELT mappings, theme categories) are parameters of the
corresponding functions; the alias table and all numeric logic are
transcribed from the source.
-/

set_option maxHeartbeats 2000000
set_option maxRecDepth 4000

set_option allowUnsafeReducibility true
attribute [semireducible] Rat.add Rat.mul Rat.sub Rat.inv Rat.div Rat.ofScientific

/-- ExtractionMethod enum from models.py. -/
inductive ExtractionMethod where
  | SIC_MAPPING
  | KEYWORD_NLP
  | PATENT
  | EMBEDDING
  | NEWS
  | SOCIAL
  | LLM
deriving DecidableEq

/-- Theme dataclass from models.py (confidence embedded as an exact rational). -/
structure Theme where
  name : String
  confidence : ℚ
  source : ExtractionMethod
  evidence : Option String := none
  canonical_category : Option String := none
deriving DecidableEq

/-- CompanyProfile dataclass from models.py (fields used by the extractors). -/
structure CompanyProfile where
  ticker : String
  name : String
  sector : Option String := none
  industry : Option String := none
  sic_code : Option String := none
  market_cap : Option ℚ := none
  business_summary : Option String := none
  business_description : Option String := none
  risk_factors : Option String := none
  patent_cpc_codes : List String := []
  patent_count : Nat := 0
  news_themes : List String := []
  news_titles : List String := []
  social_text : Option String := none

/-- ThemeResult dataclass from models.py (metadata map flattened to the
fields the ensemble actually writes). -/
structure ThemeResult where
  ticker : String
  company_name : String
  themes : List Theme
  profile : CompanyProfile
  sources_used : List ExtractionMethod
  total_raw_themes : Nat

/-- Python round-half-to-even of a rational to the nearest integer,
as used by round(x, 3) after scaling. -/
def roundHalfEven (q : ℚ) : ℤ :=
  if q - ⌊q⌋ < 1/2 then ⌊q⌋
  else if 1/2 < q - ⌊q⌋ then ⌊q⌋ + 1
  else if ⌊q⌋ % 2 = 0 then ⌊q⌋ else ⌊q⌋ + 1

/-- Python round(x, 3): banker's rounding at three decimal places. -/
def pyRound3 (q : ℚ) : ℚ :=
  (roundHalfEven (q * 1000) : ℚ) / 1000

/-- ASCII whitespace test for the Python str.strip embedding (the strings
appearing in this development are ASCII). -/
def pySpaceChar (c : Char) : Bool :=
  c == ' ' || c == '\t' || c == '\n' || c == '\r' ||
    c == Char.ofNat 11 || c == Char.ofNat 12

/-- Python str.strip(): remove leading and trailing whitespace. -/
def pyStrip (s : String) : String :=
  String.mk (((s.data.dropWhile pySpaceChar).reverse.dropWhile pySpaceChar).reverse)

/-- ASCII lower-casing of one character (Python str.lower on ASCII text). -/
def lowerChar (c : Char) : Char :=
  if 65 ≤ c.toNat ∧ c.toNat ≤ 90 then Char.ofNat (c.toNat + 32) else c

/-- ASCII upper-casing of one character (Python str.upper on ASCII text). -/
def upperChar (c : Char) : Char :=
  if 97 ≤ c.toNat ∧ c.toNat ≤ 122 then Char.ofNat (c.toNat - 32) else c

/-- Python str.lower() on ASCII text. -/
def pyLower (s : String) : String :=
  String.mk (s.data.map lowerChar)

/-- Python str.upper() on ASCII text. -/
def pyUpper (s : String) : String :=
  String.mk (s.data.map upperChar)

/-- Python string slicing s[:n] (character based). -/
def strTake (s : String) (n : Nat) : String :=
  String.mk (s.data.take n)

/-- Python str.startswith. -/
def strStartsWith (s pre : String) : Bool :=
  pre.data.isPrefixOf s.data

/-- Python " ".join. -/
def joinSpace (parts : List String) : String :=
  match parts with
  | [] => ""
  | p :: rest => rest.foldl (fun acc q => acc ++ " " ++ q) p

/-- ALIASES table from taxonomy/normalizer.py, in source order. -/
def ALIASES : List (String × String) := [
  ("ai", "artificial intelligence"),
  ("ml", "machine learning"),
  ("ev", "electric vehicles"),
  ("evs", "electric vehicles"),
  ("iot", "internet of things"),
  ("vr", "virtual reality"),
  ("ar", "augmented reality"),
  ("xr", "augmented reality"),
  ("saas", "cloud computing"),
  ("paas", "cloud computing"),
  ("iaas", "cloud computing"),
  ("cyber security", "cybersecurity"),
  ("cyber-security", "cybersecurity"),
  ("self-driving", "autonomous driving"),
  ("driverless", "autonomous driving"),
  ("online retail", "e-commerce"),
  ("digital commerce", "e-commerce"),
  ("ecommerce", "e-commerce"),
  ("chips", "semiconductors"),
  ("chip", "semiconductors"),
  ("biotech", "biotechnology"),
  ("medtech", "medical devices"),
  ("green energy", "renewable energy"),
  ("clean tech", "cleantech"),
  ("smart watch", "wearable technology"),
  ("smartwatch", "wearable technology"),
  ("wearables", "wearable technology"),
  ("data analytics", "big data"),
  ("data science", "big data"),
  ("analytics", "big data"),
  ("digital advertising", "adtech"),
  ("advertising technology", "adtech"),
  ("programmatic advertising", "adtech"),
  ("gen ai", "generative ai"),
  ("genai", "generative ai"),
  ("llm", "generative ai"),
  ("large language model", "generative ai"),
  ("chatbot", "generative ai"),
  ("gpt", "generative ai"),
  ("deep learning", "artificial intelligence"),
  ("neural network", "artificial intelligence"),
  ("neural networks", "artificial intelligence"),
  ("telemedicine", "telehealth"),
  ("pharma", "drug discovery"),
  ("pharmaceutical", "drug discovery"),
  ("biopharma", "drug discovery"),
  ("biopharmaceutical", "drug discovery"),
  ("crypto", "cryptocurrency"),
  ("bitcoin", "cryptocurrency"),
  ("ethereum", "cryptocurrency"),
  ("neobank", "fintech"),
  ("digital bank", "fintech"),
  ("digital banking", "fintech"),
  ("mobile payments", "digital payments"),
  ("contactless payments", "digital payments"),
  ("uav", "drones"),
  ("unmanned aerial", "drones"),
  ("3d print", "3d printing"),
  ("additive manufacturing", "3d printing"),
  ("reit", "real estate"),
  ("property", "real estate"),
  ("solar energy", "solar"),
  ("solar power", "solar"),
  ("wind power", "wind energy"),
  ("offshore wind", "wind energy"),
  ("ev charging", "electric vehicles"),
  ("charging infrastructure", "electric vehicles"),
  ("lithium-ion", "battery technology"),
  ("solid-state battery", "battery technology"),
  ("energy transition", "clean energy"),
  ("decarbonization", "clean energy"),
  ("net zero", "clean energy"),
  ("carbon neutral", "clean energy"),
  ("metaverse", "metaverse"),
  ("web3", "blockchain"),
  ("web 3", "blockchain"),
  ("defi", "defi"),
  ("decentralized finance", "defi"),
  ("nft", "nft"),
  ("non-fungible", "nft"),
  ("pet care", "pet economy"),
  ("veterinary", "pet economy"),
  ("senior care", "aging population"),
  ("elderly care", "aging population"),
  ("work from home", "remote work"),
  ("wfh", "remote work"),
  ("hybrid work", "remote work"),
  ("freelance", "gig economy"),
  ("gpu", "ai chips"),
  ("tpu", "ai chips"),
  ("ai accelerator", "ai chips"),
  ("cloud infrastructure", "cloud infrastructure"),
  ("hyperscale", "data center"),
  ("colocation", "data center")]

/-- Alias-table lookup (Python dict get on ALIASES). -/
def aliasLookup (s : String) : Option String :=
  (ALIASES.find? (fun p => p.1 = s)).map Prod.snd

/-- The theme names of the keyword table in keyword_extractor.py
(THEME_KEYWORDS keys, in source order). -/
def KEYWORD_THEME_NAMES : List String := [
  "artificial intelligence", "cloud computing", "mobile",
  "wearable technology", "cybersecurity", "e-commerce", "fintech",
  "electric vehicles", "5g", "big data", "adtech", "semiconductors",
  "healthcare", "biotechnology", "drug discovery", "genomics",
  "renewable energy", "solar", "wind energy", "battery technology",
  "autonomous driving", "streaming", "robotics", "blockchain",
  "cryptocurrency", "space", "gaming", "internet of things",
  "quantum computing", "generative ai", "lifestyle", "digital payments",
  "telehealth", "data center", "sustainability"]

/-- Modelled from the spec: taxonomy/themes.py (ALL_THEMES) is not under
src/; the spec describes a static theme vocabulary covering the ~35
keyword-table themes and the canonical alias targets, so the vocabulary is
modelled as exactly those names. -/
def ALL_THEMES : List String :=
  (KEYWORD_THEME_NAMES ++ ALIASES.map Prod.snd).dedup

/-- ThemeNormalizer.normalize from taxonomy/normalizer.py: strip and
lower-case, resolve aliases, otherwise pass through unchanged. -/
def normalizeTheme (theme : String) : String :=
  let cleaned := pyLower (pyStrip theme)
  match aliasLookup cleaned with
  | some v => v
  | none => if cleaned ∈ ALL_THEMES then cleaned else cleaned

/-- ThemeNormalizer.get_category, parameterized by the THEME_CATEGORIES
table (taxonomy/themes.py is not under src/). -/
def getCategory (catTbl : List (String × String)) (theme : String) : Option String :=
  (catTbl.find? (fun p => p.1 = normalizeTheme theme)).map Prod.snd

/-- Source weights from ensemble.py SOURCE_WEIGHTS (a total table on the
closed enum; the .get default of 0.5 is unreachable for it). -/
def sourceWeight (m : ExtractionMethod) : ℚ :=
  match m with
  | .LLM => 1.0
  | .EMBEDDING => 0.85
  | .KEYWORD_NLP => 0.8
  | .PATENT => 0.7
  | .NEWS => 0.6
  | .SIC_MAPPING => 0.5
  | .SOCIAL => 0.4

/-- MULTI_SOURCE_BONUS from ensemble.py. -/
def MULTI_SOURCE_BONUS : ℚ := 0.05

/-- MAX_MULTI_SOURCE_BONUS from ensemble.py. -/
def MAX_MULTI_SOURCE_BONUS : ℚ := 0.15

/-- BLOCKED_THEMES from ensemble.py (a Python set; only membership is used). -/
def BLOCKED_THEMES : List String := [
  "company", "corporation", "business", "enterprise", "firm", "organization",
  "stock", "share", "equity", "investment", "revenue", "profit", "earnings",
  "dividend", "capital", "fund", "asset", "portfolio", "growth", "value",
  "market", "trading", "securities", "financial", "fiscal", "monetary",
  "technology", "industry", "sector", "services", "products", "solutions",
  "operations", "management", "strategy", "innovation", "development",
  "research", "manufacturing", "consumer", "retail", "commercial",
  "global", "international", "domestic", "public", "private",
  "large cap", "mid cap", "small cap", "blue chip"]

/-- The grouping keys of _merge_and_rank: normalized names in first
occurrence order (Python dict insertion order). -/
def groupKeys (themes : List Theme) : List String :=
  themes.foldl
    (fun acc t =>
      if normalizeTheme t.name ∈ acc then acc
      else acc ++ [normalizeTheme t.name]) []

/-- The group of raw themes whose normalized name equals the key. -/
def groupOf (themes : List Theme) (key : String) : List Theme :=
  themes.filter (fun t => normalizeTheme t.name = key)

/-- The distinct sources of a group (set(t.source for t in group); only its
size is consumed). -/
def distinctSources (g : List Theme) : List ExtractionMethod :=
  g.foldl (fun acc t => if t.source ∈ acc then acc else acc ++ [t.source]) []

/-- source_bonus of a group in _merge_and_rank. -/
def sourceBonus (g : List Theme) : ℚ :=
  min MAX_MULTI_SOURCE_BONUS
    (MULTI_SOURCE_BONUS * (((distinctSources g).length : ℚ) - 1))

/-- weighted_sum of a group in _merge_and_rank. -/
def weightedSum (g : List Theme) : ℚ :=
  (g.map (fun t => t.confidence * sourceWeight t.source)).sum

/-- weighted_count of a group in _merge_and_rank. -/
def weightedCount (g : List Theme) : ℚ :=
  (g.map (fun t => sourceWeight t.source)).sum

/-- avg_confidence of a group (0 when the weight total is 0, per the
Python conditional expression). -/
def avgConfidence (g : List Theme) : ℚ :=
  if weightedCount g = 0 then 0 else weightedSum g / weightedCount g

/-- best = max(group, key=confidence): Python max keeps the first of
several maximal elements. -/
def bestMember (t : Theme) (rest : List Theme) : Theme :=
  rest.foldl (fun b u => if b.confidence < u.confidence then u else b) t

/-- The merged Theme built for one surviving group in _merge_and_rank. -/
def mkMergedTheme (catTbl : List (String × String)) (key : String)
    (t : Theme) (rest : List Theme) : Theme :=
  let g := t :: rest
  { name := key
    confidence := pyRound3 (min 1 (avgConfidence g + sourceBonus g))
    source := (bestMember t rest).source
    evidence := (bestMember t rest).evidence
    canonical_category := getCategory catTbl key }

/-- The merged (unsorted) theme list of _merge_and_rank: one entry per
non-blocked group, in group-key order. -/
def mergeGroups (catTbl : List (String × String)) (themes : List Theme) :
    List Theme :=
  (groupKeys themes).filterMap (fun key =>
    if key ∈ BLOCKED_THEMES then none
    else
      match groupOf themes key with
      | [] => none
      | t :: rest => some (mkMergedTheme catTbl key t rest))

/-- Descending-by-confidence order used for sort(reverse=True); a stable
sort with this order has the same output as Python's stable sort. -/
def themeDesc (a b : Theme) : Prop :=
  b.confidence ≤ a.confidence

instance : DecidableRel themeDesc :=
  fun a b => inferInstanceAs (Decidable (b.confidence ≤ a.confidence))

instance : IsTotal Theme themeDesc :=
  ⟨fun a b => le_total b.confidence a.confidence⟩

instance : IsTrans Theme themeDesc :=
  ⟨fun _ _ _ hab hbc => le_trans hbc hab⟩

/-- Stable descending sort of themes by confidence (Python sort with
reverse=True, stable). -/
def sortThemesDesc (ts : List Theme) : List Theme :=
  ts.insertionSort themeDesc

/-- EnsembleExtractor._merge_and_rank: group, filter, score, sort. -/
def mergeAndRank (catTbl : List (String × String)) (themes : List Theme) :
    List Theme :=
  sortThemesDesc (mergeGroups catTbl themes)

/-- One extractor run at the ensemble level: either the theme list it
returned, or the exception it raised (caught by the ensemble). -/
abbrev ExtractorOutcome := Except String (List Theme)

/-- The all_themes accumulation loop of EnsembleExtractor.extract: a raised
exception contributes no themes and the loop continues. -/
def collectThemes (outcomes : List ExtractorOutcome) : List Theme :=
  outcomes.foldl
    (fun acc r =>
      match r with
      | .ok ts => acc ++ ts
      | .error _ => acc) []

/-- The sources_used metadata entry (a Python set; modelled as the
deduplicated source list in first-occurrence order). -/
def sourcesUsed (ts : List Theme) : List ExtractionMethod :=
  ts.foldl (fun acc t => if t.source ∈ acc then acc else acc ++ [t.source]) []

/-- EnsembleExtractor.extract, with the extractor fan-out abstracted as the
list of per-extractor outcomes it iterates over. -/
def ensembleExtract (catTbl : List (String × String)) (maxThemes : Nat)
    (p : CompanyProfile) (outcomes : List ExtractorOutcome) : ThemeResult :=
  let allThemes := collectThemes outcomes
  let ranked := mergeAndRank catTbl allThemes
  { ticker := p.ticker
    company_name := p.name
    themes := ranked.take maxThemes
    profile := p
    sources_used := sourcesUsed allThemes
    total_raw_themes := allThemes.length }

/-- Assoc-list lookup used for the JSON mapping tables (Python dict). -/
def tblLookup (tbl : List (String × List String)) (key : String) :
    Option (List String) :=
  (tbl.find? (fun p => p.1 = key)).map Prod.snd

/-- The seen-set guarded append loop shared by all SICMapper branches:
append a Theme per name not seen yet, recording it as seen. -/
def addUnseen (st : List Theme × List String) (names : List String)
    (conf : ℚ) (ev : String) : List Theme × List String :=
  names.foldl
    (fun st n =>
      if n ∈ st.2 then st
      else (st.1 ++ [{ name := n, confidence := conf,
                       source := .SIC_MAPPING, evidence := some ev }], st.2 ++ [n]))
    st

/-- The exact 4-digit SIC lookup of SICMapper.extract (confidence 0.65). -/
def sicExactStage (mapping : List (String × List String)) (sic : String) :
    List Theme × List String :=
  match tblLookup mapping sic with
  | some names => addUnseen ([], []) names 0.65 ("SIC code " ++ sic)
  | none => ([], [])

/-- The 2-digit-prefix lookup of SICMapper.extract: the prefix padded with
"00" at confidence 0.4, only when it differs from the exact code. -/
def sicBroadStage (mapping : List (String × List String)) (sic : String)
    (stA : List Theme × List String) : List Theme × List String :=
  match tblLookup mapping (strTake sic 2 ++ "00") with
  | some names =>
    if strTake sic 2 ++ "00" ≠ sic then
      addUnseen stA names 0.4 ("SIC prefix " ++ strTake sic 2 ++ "xx")
    else stA
  | none => stA

/-- The SIC-code branch of SICMapper.extract (runs on a truthy sic_code). -/
def sicCodeStage (mapping : List (String × List String)) (p : CompanyProfile) :
    List Theme × List String :=
  match p.sic_code with
  | none => ([], [])
  | some s =>
    if s = "" then ([], [])
    else sicBroadStage mapping (pyStrip s) (sicExactStage mapping (pyStrip s))

/-- The sector/industry stage of SICMapper.extract: a truthy text field is
lower-cased and emitted as a pseudo-theme if not yet seen. -/
def sicTextStage (st : List Theme × List String) (field : Option String)
    (conf : ℚ) (ev : String) : List Theme × List String :=
  match field with
  | none => st
  | some s => if s = "" then st else addUnseen st [pyLower s] conf ev

/-- SICMapper.extract, parameterized by the sic_mapping.json table (that
data file is not under src/). -/
def sicExtract (mapping : List (String × List String)) (p : CompanyProfile) :
    List Theme :=
  (sicTextStage
    (sicTextStage (sicCodeStage mapping p) p.sector 0.5 "Yahoo Finance sector")
    p.industry 0.55 "Yahoo Finance industry").1

/-- A compiled keyword regex, abstracted to the two observations the
extractor makes of it: how many matches re.findall returns on a text, and
the stripped ±40-character window around the first re.search match. -/
structure KwPattern where
  count : String → Nat
  window : String → Option String

/-- The combined text of KeywordExtractor.extract: the truthy text fields
joined with a space, or none when no field is truthy. -/
def combinedKeywordText (p : CompanyProfile) : Option String :=
  let pick := fun (o : Option String) =>
    match o with
    | some s => if s = "" then [] else [s]
    | none => []
  let parts := pick p.business_description ++ pick p.business_summary ++
    pick p.risk_factors ++ pick p.social_text
  if parts = [] then none else some (joinSpace parts)

/-- Total match count of a theme's pattern list on a text. -/
def kwMatchCount (pats : List KwPattern) (text : String) : Nat :=
  (pats.map (fun pat => pat.count text)).sum

/-- first_match_context: the window of the first pattern with any match. -/
def kwFirstContext (pats : List KwPattern) (text : String) : Option String :=
  (pats.find? (fun pat => decide (1 ≤ pat.count text))).bind
    (fun pat => pat.window text)

/-- The confidence formula of KeywordExtractor.extract. -/
def kwConfidence (matchCount textLength : Nat) : ℚ :=
  pyRound3 (min 0.9
    (0.35 + ((matchCount : ℚ) / ((textLength : ℚ) / 1000)) * 0.08))

/-- The per-theme emission loop of KeywordExtractor.extract on a text. -/
def keywordThemesFor (tbl : List (String × List KwPattern)) (text : String) :
    List Theme :=
  tbl.filterMap (fun e =>
    if 1 ≤ kwMatchCount e.2 text then
      some { name := e.1
             confidence := kwConfidence (kwMatchCount e.2 text) text.length
             source := .KEYWORD_NLP
             evidence := kwFirstContext e.2 text }
    else none)

/-- KeywordExtractor.extract, parameterized by the pattern table (the regex
engine is abstracted into KwPattern). -/
def keywordExtract (tbl : List (String × List KwPattern)) (p : CompanyProfile) :
    List Theme :=
  match combinedKeywordText p with
  | none => []
  | some text => sortThemesDesc (keywordThemesFor tbl text)

/-- The confidence formula of SocialExtractor.extract. -/
def socialConfidence (matchCount textLength : Nat) : ℚ :=
  pyRound3 (min 0.75
    (0.25 + ((matchCount : ℚ) / ((textLength : ℚ) / 1000)) * 0.07))

/-- SocialExtractor.extract: keyword patterns on social_text only, with a
two-match threshold. -/
def socialExtract (tbl : List (String × List KwPattern)) (p : CompanyProfile) :
    List Theme :=
  match p.social_text with
  | none => []
  | some text =>
    if text = "" ∨ pyStrip text = "" then []
    else
      sortThemesDesc (tbl.filterMap (fun e =>
        if 2 ≤ kwMatchCount e.2 text then
          some { name := e.1
                 confidence := socialConfidence (kwMatchCount e.2 text) text.length
                 source := .SOCIAL
                 evidence := kwFirstContext e.2 text }
        else none))

/-- PatentMapper._lookup: exact code, then 4-character, then 3-character
cut of the stripped code, first hit wins, parameterized by cpc_mapping.json. -/
def cpcLookup (mapping : List (String × List String)) (cpc : String) :
    List String :=
  let code := pyStrip cpc
  match tblLookup mapping code with
  | some names => names
  | none =>
    match tblLookup mapping (strTake code 4) with
    | some names => names
    | none =>
      match tblLookup mapping (strTake code 3) with
      | some names => names
      | none => []

/-- Counter increment preserving first-insertion order (Python Counter). -/
def bumpCount (counts : List (String × Nat)) (k : String) :
    List (String × Nat) :=
  if k ∈ counts.map Prod.fst then
    counts.map (fun e => if e.1 = k then (e.1, e.2 + 1) else e)
  else counts ++ [(k, 1)]

/-- Descending-by-count order for Counter.most_common(). -/
def countDesc (a b : String × Nat) : Prop :=
  b.2 ≤ a.2

instance : DecidableRel countDesc :=
  fun a b => inferInstanceAs (Decidable (b.2 ≤ a.2))

instance : IsTotal (String × Nat) countDesc :=
  ⟨fun a b => Nat.le_total b.2 a.2⟩

instance : IsTrans (String × Nat) countDesc :=
  ⟨fun _ _ _ hab hbc => le_trans hbc hab⟩

/-- Counter.most_common(): by count descending, stable on insertion order. -/
def mostCommon (counts : List (String × Nat)) : List (String × Nat) :=
  counts.insertionSort countDesc

/-- The confidence formula of PatentMapper.extract. -/
def patentConfidence (count maxCount totalPatents : Nat) : ℚ :=
  pyRound3 (min 0.85
    (0.3 + ((count : ℚ) / (maxCount : ℚ)) * 0.35 +
      min 0.2 ((totalPatents : ℚ) / 500)))

/-- The count-to-theme conversion loop of PatentMapper.extract. -/
def patentFromCounts (counts : List (String × Nat)) (total : Nat) : List Theme :=
  if counts = [] then []
  else
    (mostCommon counts).map (fun e =>
      { name := e.1
        confidence := patentConfidence e.2 ((counts.map Prod.snd).foldl max 0) total
        source := .PATENT
        evidence := some (toString e.2 ++
          " patents with matching CPC codes (of " ++ toString total ++ " total)") })

/-- PatentMapper.extract, parameterized by the CPC table. -/
def patentExtract (mapping : List (String × List String)) (p : CompanyProfile) :
    List Theme :=
  if p.patent_cpc_codes = [] then []
  else
    patentFromCounts
      (p.patent_cpc_codes.foldl
        (fun acc c => (cpcLookup mapping c).foldl bumpCount acc) [])
      (if p.patent_count = 0 then p.patent_cpc_codes.length else p.patent_count)

/-- total_articles in NewsExtractor.extract: len(news_titles) or 1. -/
def totalArticles (p : CompanyProfile) : Nat :=
  if p.news_titles.length = 0 then 1 else p.news_titles.length

/-- One GDELT code mapped through the table: exact match first, then the
first table entry (in order) whose key is a prefix of the code. -/
def gdeltMapCode (mapping : List (String × String)) (code : String) :
    Option String :=
  let g := pyUpper (pyStrip code)
  match (mapping.find? (fun e => e.1 = g)).map Prod.snd with
  | some canonical => some canonical
  | none => (mapping.find? (fun e => strStartsWith g e.1)).map Prod.snd

/-- The GDELT theme Counter of NewsExtractor.extract. -/
def newsCounts (mapping : List (String × String)) (codes : List String) :
    List (String × Nat) :=
  codes.foldl
    (fun acc c =>
      match gdeltMapCode mapping c with
      | some canonical => bumpCount acc canonical
      | none => acc) []

/-- The confidence formula of NewsExtractor.extract. -/
def newsConfidence (count maxCount total : Nat) : ℚ :=
  pyRound3 (min 0.8
    (0.25 + ((count : ℚ) / (maxCount : ℚ)) * 0.3 +
      min 0.15 ((count : ℚ) / (total : ℚ))))

/-- The count-to-theme conversion loop of NewsExtractor.extract. -/
def newsFromCounts (counts : List (String × Nat)) (total : Nat) : List Theme :=
  if counts = [] then []
  else
    (mostCommon counts).map (fun e =>
      { name := e.1
        confidence := newsConfidence e.2 ((counts.map Prod.snd).foldl max 0) total
        source := .NEWS
        evidence := some ("Mentioned in " ++ toString e.2 ++ " GDELT articles") })

/-- NewsExtractor.extract, parameterized by the gdelt_mapping.json table. -/
def newsExtract (mapping : List (String × String)) (p : CompanyProfile) :
    List Theme :=
  if p.news_themes = [] then []
  else newsFromCounts (newsCounts mapping p.news_themes) (totalArticles p)

/-- EmbeddingMatcher.extract over the matched_themes map of a FilterResult
(insertion-ordered pairs); the score formatting of the evidence string is a
parameter. -/
def embeddingExtract (fmt : ℚ → String) (matched : List (String × ℚ)) :
    List Theme :=
  sortThemesDesc (matched.map (fun e =>
    { name := e.1
      confidence := pyRound3 e.2
      source := ExtractionMethod.EMBEDDING
      evidence := some ("Cosine similarity " ++ fmt e.2 ++
        " against theme embedding") }))

/-- One parsed entry of the LLM JSON response: the two fields the code
reads via .get, absent keys as none (confidences assumed numeric). -/
structure LLMRawEntry where
  theme : Option String
  confidence : Option ℚ
deriving DecidableEq

/-- Python truthiness test used by the LLM list comprehension filter:
both fields present, theme non-empty and confidence nonzero. -/
def llmKept (e : LLMRawEntry) : Bool :=
  (match e.theme with | some s => decide (s ≠ "") | none => false) &&
  (match e.confidence with | some c => decide (c ≠ 0) | none => false)

/-- The list comprehension of LLMExtractor.extract: drop falsy entries,
strip/lower the name, clamp the confidence into the unit interval. -/
def llmParseThemes (entries : List LLMRawEntry) : List Theme :=
  entries.filterMap (fun e =>
    match e.theme, e.confidence with
    | some s, some c =>
      if s ≠ "" ∧ c ≠ 0 then
        some { name := pyLower (pyStrip s)
               confidence := min 1 (max 0 c)
               source := .LLM
               evidence := some "LLM extraction from pre-filtered text" }
      else none
    | _, _ => none)

/-- Boolean unit-interval check on every confidence of a theme list. -/
def allConf01 (ts : List Theme) : Bool :=
  ts.all (fun t => decide (0 ≤ t.confidence) && decide (t.confidence ≤ 1))

/-- Non-overlapping occurrence scan of a nonempty needle over a character
list, advancing past each match, as re.findall does for a literal pattern
(fuel-driven structural recursion; fuel = haystack length suffices since
every step consumes at least one character). -/
def countOccFrom (n : Char) (ns : List Char) : Nat → List Char → Nat
  | _, [] => 0
  | 0, _ => 0
  | fuel + 1, c :: rest =>
    if (n :: ns).isPrefixOf (c :: rest) then
      1 + countOccFrom n ns fuel (rest.drop ns.length)
    else countOccFrom n ns fuel rest

/-- Occurrence count of a literal needle in a haystack. -/
def countOccStr (needle hay : String) : Nat :=
  match needle.data with
  | [] => 0
  | n :: ns => countOccFrom n ns hay.data.length hay.data

/-- A literal, case-insensitive keyword pattern: the KwPattern abstraction
instantiated for a regex that is a plain word-bounded literal, on texts
where every literal occurrence is word-bounded. -/
def litPat (needle : String) : KwPattern :=
  { count := fun hay => countOccStr (pyLower needle) (pyLower hay)
    window := fun _ => none }

/-- A 500-character business description containing each of the phrases
"artificial intelligence" and "machine learning" exactly once. -/
def descC7 : String :=
  "This company builds advanced software platforms that apply artificial intelligence and machine learning to everyday problems across many industries and markets worldwide. "
    ++ String.mk (List.replicate 329 'a')

/-- The scenario profile for the keyword-extractor example: a 500-character
business description and nothing else. -/
def profileC7 : CompanyProfile :=
  { ticker := "TST", name := "Test Co", business_description := some descC7 }

/-- The "artificial intelligence" row of the keyword table, with its two
patterns that can match the scenario text modelled as literal patterns
(the remaining four regexes of the source row match the scenario text zero
times and contribute nothing to the count). -/
def kwTblC7 : List (String × List KwPattern) :=
  [("artificial intelligence",
    [litPat "artificial intelligence", litPat "machine learning"])]

/-- An empty category table (theme categories play no role in the claims). -/
def catTbl0 : List (String × String) := []

/-- Raw themes reproducing the spec's own merge example: the same theme
from the keyword extractor at 0.67 and the embedding matcher at 0.72. -/
def tsC1 : List Theme :=
  [{ name := "artificial intelligence", confidence := 0.67,
     source := .KEYWORD_NLP, evidence := some "kw" },
   { name := "artificial intelligence", confidence := 0.72,
     source := .EMBEDDING, evidence := some "emb" }]

/-- A one-element raw theme list used to instantiate merge theorems. -/
def tsSolar : List Theme :=
  [{ name := "Solar", confidence := 0.8, source := .NEWS,
     evidence := some "news" }]

/-- Raw themes with one blocked name and one surviving name. -/
def tsC3 : List Theme :=
  [{ name := "Technology", confidence := 0.9, source := .LLM },
   { name := "Solar", confidence := 0.8, source := .NEWS }]

/-- The scenario profile of the SIC-mapper example. -/
def profileC6 : CompanyProfile :=
  { ticker := "TST", name := "Test Co", sector := some "Technology",
    industry := some "Software - Infrastructure", sic_code := some "7372" }

/-- A SIC table fragment mapping 7372 to software, for the witness. -/
def sicTblC6 : List (String × List String) := [("7372", ["software"])]

/-- A SIC table fragment that also has a broad 7300 entry, to exercise the
0.4 prefix stage and the seen-set suppression of its duplicate name. -/
def sicTblC6b : List (String × List String) :=
  [("7372", ["software"]), ("7300", ["enterprise software", "software"])]

/-- A profile whose 4-digit SIC code equals its own padded 2-digit prefix,
so the broad-match stage must stay silent. -/
def profileC6b : CompanyProfile :=
  { ticker := "TST", name := "Test Co", sic_code := some "7300" }

/-- News scenario: one mapped GDELT code and no article titles. -/
def profileC10 : CompanyProfile :=
  { ticker := "TST", name := "Test Co", news_themes := ["TAX_AI"] }

/-- A GDELT table fragment for the news scenario. -/
def newsTblC10 : List (String × String) := [("TAX_AI", "artificial intelligence")]

/-- The single Theme that llmParseThemes keeps from llmEntriesC9. -/
def llmThemeC9 : Theme :=
  { name := "ai", confidence := 0, source := .LLM,
    evidence := some "LLM extraction from pre-filtered text" }

/-- Extractor outcomes for the truncation witness: one extractor returned
two raw themes, nothing failed. -/
def outcomesC2 : List ExtractorOutcome :=
  [Except.ok
    [{ name := "AI", confidence := 0.9, source := .LLM, evidence := some "llm" },
     { name := "Solar", confidence := 0.8, source := .NEWS, evidence := some "news" }]]

/-- A minimal profile for ensemble-level witnesses. -/
def profileW : CompanyProfile := { ticker := "TST", name := "Test Co" }

/-- Parsed LLM entries exercising the falsy filter and the clamp. -/
def llmEntriesC9 : List LLMRawEntry :=
  [{ theme := some "AI", confidence := some (-(1/2)) },
   { theme := some "", confidence := some 0.9 },
   { theme := some "cloud", confidence := none },
   { theme := none, confidence := some 0.5 },
   { theme := some "fintech", confidence := some 0 }]

theorem roundHalfEven_le (q : ℚ) : (roundHalfEven q : ℚ) ≤ q + 1/2 := by
  unfold roundHalfEven
  have hf : (⌊q⌋ : ℚ) ≤ q := Int.floor_le q
  have hf1 : q < (⌊q⌋ : ℚ) + 1 := Int.lt_floor_add_one q
  split_ifs with h1 h2 h3 <;> push_cast <;> linarith

theorem le_roundHalfEven (q : ℚ) : q - 1/2 ≤ (roundHalfEven q : ℚ) := by
  unfold roundHalfEven
  have hf : (⌊q⌋ : ℚ) ≤ q := Int.floor_le q
  have hf1 : q < (⌊q⌋ : ℚ) + 1 := Int.lt_floor_add_one q
  split_ifs with h1 h2 h3 <;> push_cast <;> linarith

theorem roundHalfEven_le_int (q : ℚ) (n : ℤ) (h : q ≤ n) :
    roundHalfEven q ≤ n := by
  have h1 : (roundHalfEven q : ℚ) < (n : ℚ) + 1 := by
    have := roundHalfEven_le q
    linarith
  have h2 : roundHalfEven q < n + 1 := by exact_mod_cast h1
  omega

theorem int_le_roundHalfEven (q : ℚ) (n : ℤ) (h : (n : ℚ) ≤ q) :
    n ≤ roundHalfEven q := by
  have h1 : (n : ℚ) - 1 < (roundHalfEven q : ℚ) := by
    have := le_roundHalfEven q
    linarith
  have h2 : n - 1 < roundHalfEven q := by exact_mod_cast h1
  omega

theorem pyRound3_le_add (q : ℚ) : pyRound3 q ≤ q + 1/2000 := by
  unfold pyRound3
  have := roundHalfEven_le (q * 1000)
  rw [div_le_iff₀ (by norm_num : (0:ℚ) < 1000)]
  linarith

theorem pyRound3_mem01 (q : ℚ) (h0 : 0 ≤ q) (h1 : q ≤ 1) :
    0 ≤ pyRound3 q ∧ pyRound3 q ≤ 1 := by
  constructor
  · unfold pyRound3
    have : (0 : ℤ) ≤ roundHalfEven (q * 1000) := by
      apply int_le_roundHalfEven
      push_cast
      linarith
    positivity
  · unfold pyRound3
    have : roundHalfEven (q * 1000) ≤ (1000 : ℤ) := by
      apply roundHalfEven_le_int
      push_cast
      linarith
    rw [div_le_one (by norm_num : (0:ℚ) < 1000)]
    exact_mod_cast this

theorem pyRound3_min_mem01 (cap e : ℚ) (hc0 : 0 ≤ cap) (hc1 : cap ≤ 1)
    (he : 0 ≤ e) : 0 ≤ pyRound3 (min cap e) ∧ pyRound3 (min cap e) ≤ 1 :=
  pyRound3_mem01 _ (le_min hc0 he) ((min_le_left _ _).trans hc1)

theorem mem_foldl_dedupBy {α β : Type} [DecidableEq β] (f : α → β) :
    ∀ (l : List α) (acc : List β) (x : β),
      (x ∈ l.foldl
        (fun acc t => if f t ∈ acc then acc else acc ++ [f t]) acc) ↔
        (x ∈ acc ∨ ∃ t ∈ l, f t = x) := by
  intro l
  induction l with
  | nil => intro acc x; simp
  | cons t l ih =>
    intro acc x
    simp only [List.foldl_cons]
    rw [ih]
    by_cases h : f t ∈ acc
    · simp only [h, if_true]
      constructor
      · rintro (hx | ⟨u, hu, he⟩)
        · exact Or.inl hx
        · exact Or.inr ⟨u, List.mem_cons_of_mem _ hu, he⟩
      · rintro (hx | ⟨u, hu, he⟩)
        · exact Or.inl hx
        · rcases List.mem_cons.1 hu with rfl | hu2
          · exact Or.inl (he ▸ h)
          · exact Or.inr ⟨u, hu2, he⟩
    · simp only [h, if_false]
      constructor
      · rintro (hx | ⟨u, hu, he⟩)
        · rcases List.mem_append.1 hx with hx2 | hx2
          · exact Or.inl hx2
          · exact Or.inr ⟨t, List.mem_cons_self t l,
              (List.mem_singleton.1 hx2).symm⟩
        · exact Or.inr ⟨u, List.mem_cons_of_mem _ hu, he⟩
      · rintro (hx | ⟨u, hu, he⟩)
        · exact Or.inl (List.mem_append.2 (Or.inl hx))
        · rcases List.mem_cons.1 hu with rfl | hu2
          · exact Or.inl (List.mem_append.2 (Or.inr (by simp [he])))
          · exact Or.inr ⟨u, hu2, he⟩

theorem mem_groupKeys {ts : List Theme} {k : String} :
    k ∈ groupKeys ts ↔ ∃ t ∈ ts, normalizeTheme t.name = k := by
  have h := mem_foldl_dedupBy (fun t : Theme => normalizeTheme t.name) ts [] k
  simpa [groupKeys] using h

theorem mem_distinctSources {g : List Theme} {s : ExtractionMethod} :
    s ∈ distinctSources g ↔ ∃ t ∈ g, t.source = s := by
  have h := mem_foldl_dedupBy (fun t : Theme => t.source) g [] s
  simpa [distinctSources] using h

theorem groupOf_ne_nil {ts : List Theme} {k : String}
    (hk : k ∈ groupKeys ts) : groupOf ts k ≠ [] := by
  obtain ⟨t, ht, he⟩ := mem_groupKeys.1 hk
  have : t ∈ groupOf ts k := by
    simp only [groupOf, List.mem_filter, decide_eq_true_eq]
    exact ⟨ht, he⟩
  exact List.ne_nil_of_mem this

theorem mem_groupOf {ts : List Theme} {k : String} {t : Theme} :
    t ∈ groupOf ts k ↔ t ∈ ts ∧ normalizeTheme t.name = k := by
  simp [groupOf, List.mem_filter]

theorem source_weight_lb (m : ExtractionMethod) : (2/5 : ℚ) ≤ sourceWeight m := by
  cases m <;> norm_num [sourceWeight]

theorem source_weight_ub (m : ExtractionMethod) : sourceWeight m ≤ 1 := by
  cases m <;> norm_num [sourceWeight]

theorem weightedCount_nonneg (g : List Theme) : 0 ≤ weightedCount g := by
  apply List.sum_nonneg
  intro x hx
  obtain ⟨t, _, rfl⟩ := List.mem_map.1 hx
  exact le_trans (by norm_num) (source_weight_lb t.source)

theorem weightedCount_pos {g : List Theme} (h : g ≠ []) :
    0 < weightedCount g := by
  obtain ⟨t, rest, rfl⟩ := List.exists_cons_of_ne_nil h
  have h1 : (2/5 : ℚ) ≤ sourceWeight t.source := source_weight_lb t.source
  have h2 : 0 ≤ weightedCount rest := weightedCount_nonneg rest
  have : weightedCount (t :: rest) = sourceWeight t.source + weightedCount rest := by
    simp [weightedCount]
  rw [this]
  linarith

theorem avgConfidence_eq {g : List Theme} (h : g ≠ []) :
    avgConfidence g = weightedSum g / weightedCount g := by
  rw [avgConfidence, if_neg (ne_of_gt (weightedCount_pos h))]

theorem distinctSources_ne_nil {g : List Theme} (h : g ≠ []) :
    distinctSources g ≠ [] := by
  obtain ⟨t, rest, rfl⟩ := List.exists_cons_of_ne_nil h
  have : t.source ∈ distinctSources (t :: rest) :=
    mem_distinctSources.2 ⟨t, List.mem_cons_self t rest, rfl⟩
  exact List.ne_nil_of_mem this

theorem sourceBonus_nonneg {g : List Theme} (h : g ≠ []) :
    0 ≤ sourceBonus g := by
  have h1 : 1 ≤ (distinctSources g).length :=
    List.length_pos.2 (distinctSources_ne_nil h)
  have h2 : (1 : ℚ) ≤ ((distinctSources g).length : ℚ) := by exact_mod_cast h1
  apply le_min
  · norm_num [MAX_MULTI_SOURCE_BONUS]
  · rw [MULTI_SOURCE_BONUS]
    nlinarith

theorem avgConfidence_mem01 {g : List Theme} (hne : g ≠ [])
    (hg : ∀ t ∈ g, 0 ≤ t.confidence ∧ t.confidence ≤ 1) :
    0 ≤ avgConfidence g ∧ avgConfidence g ≤ 1 := by
  have hpos := weightedCount_pos hne
  have hsum0 : 0 ≤ weightedSum g := by
    apply List.sum_nonneg
    intro x hx
    obtain ⟨t, ht, rfl⟩ := List.mem_map.1 hx
    have := (hg t ht).1
    have := source_weight_lb t.source
    nlinarith
  have hsumle : weightedSum g ≤ weightedCount g := by
    apply List.sum_le_sum
    intro t ht
    have h1 := (hg t ht).2
    have h2 := source_weight_lb t.source
    nlinarith
  rw [avgConfidence_eq hne]
  constructor
  · positivity
  · rw [div_le_one hpos]
    exact hsumle

theorem mem_mergeGroups {catTbl : List (String × String)} {ts : List Theme}
    {m : Theme} :
    m ∈ mergeGroups catTbl ts ↔
      ∃ k ∈ groupKeys ts, k ∉ BLOCKED_THEMES ∧
        ∃ t rest, groupOf ts k = t :: rest ∧ m = mkMergedTheme catTbl k t rest := by
  rw [mergeGroups, List.mem_filterMap]
  constructor
  · rintro ⟨k, hk, hsome⟩
    refine ⟨k, hk, ?_⟩
    by_cases hb : k ∈ BLOCKED_THEMES
    · simp [hb] at hsome
    · refine ⟨hb, ?_⟩
      rw [if_neg hb] at hsome
      rcases hg : groupOf ts k with _ | ⟨t, rest⟩
      · rw [hg] at hsome; simp at hsome
      · rw [hg] at hsome
        exact ⟨t, rest, rfl, by simpa using hsome.symm⟩
  · rintro ⟨k, hk, hb, t, rest, hg, rfl⟩
    exact ⟨k, hk, by rw [if_neg hb, hg]⟩

theorem mem_mergeAndRank {catTbl : List (String × String)} {ts : List Theme}
    {m : Theme} :
    m ∈ mergeAndRank catTbl ts ↔ m ∈ mergeGroups catTbl ts := by
  rw [mergeAndRank, sortThemesDesc, List.mem_insertionSort]

theorem mkMergedTheme_name (catTbl : List (String × String)) (k : String)
    (t : Theme) (rest : List Theme) :
    (mkMergedTheme catTbl k t rest).name = k := rfl

theorem mkMergedTheme_confidence (catTbl : List (String × String)) (k : String)
    (t : Theme) (rest : List Theme) :
    (mkMergedTheme catTbl k t rest).confidence =
      pyRound3 (min 1 (avgConfidence (t :: rest) + sourceBonus (t :: rest))) := rfl

theorem mergeAndRank_sorted (catTbl : List (String × String)) (ts : List Theme) :
    (mergeAndRank catTbl ts).Pairwise themeDesc := by
  rw [mergeAndRank, sortThemesDesc]
  exact List.sorted_insertionSort themeDesc (mergeGroups catTbl ts)

theorem allConf01_iff {l : List Theme} :
    allConf01 l = true ↔ ∀ t ∈ l, 0 ≤ t.confidence ∧ t.confidence ≤ 1 := by
  simp [allConf01, List.all_eq_true]

theorem addUnseen_pred (P : Theme → Prop) (names : List String) :
    ∀ (st : List Theme × List String) (conf : ℚ) (ev : String),
      (∀ t ∈ st.1, P t) →
      (∀ n, P { name := n, confidence := conf, source := .SIC_MAPPING,
                evidence := some ev, canonical_category := none }) →
      ∀ t ∈ (addUnseen st names conf ev).1, P t := by
  induction names with
  | nil => intro st conf ev hst _; simpa [addUnseen] using hst
  | cons n names ih =>
    intro st conf ev hst hnew
    rw [addUnseen, List.foldl_cons]
    by_cases h : n ∈ st.2
    · rw [if_pos h]
      exact ih st conf ev hst hnew
    · rw [if_neg h]
      apply ih _ conf ev _ hnew
      intro t ht
      rcases List.mem_append.1 ht with ht1 | ht1
      · exact hst t ht1
      · rw [List.mem_singleton.1 ht1]
        exact hnew n


theorem sicTextStage_pred (P : Theme → Prop) (st : List Theme × List String)
    (field : Option String) (conf : ℚ) (ev : String)
    (hst : ∀ t ∈ st.1, P t)
    (hnew : ∀ n, P { name := n, confidence := conf, source := .SIC_MAPPING,
                     evidence := some ev, canonical_category := none }) :
    ∀ t ∈ (sicTextStage st field conf ev).1, P t := by
  rcases field with _ | s
  · exact hst
  · by_cases h : s = ""
    · rw [sicTextStage.eq_def]
      simpa [h] using hst
    · rw [sicTextStage.eq_def]
      simp only [h, if_false]
      exact addUnseen_pred P _ st conf ev hst hnew

theorem sicExactStage_pred (P : Theme → Prop)
    (mapping : List (String × List String)) (sic : String)
    (hnew : ∀ n ev, P { name := n, confidence := 0.65, source := .SIC_MAPPING,
                        evidence := some ev, canonical_category := none }) :
    ∀ t ∈ (sicExactStage mapping sic).1, P t := by
  rw [sicExactStage.eq_def]
  cases h : tblLookup mapping sic with
  | none => simp
  | some names =>
    exact addUnseen_pred P names ([], []) 0.65 _ (by simp) (fun n => hnew n _)

theorem sicBroadStage_pred (P : Theme → Prop)
    (mapping : List (String × List String)) (sic : String)
    (stA : List Theme × List String)
    (hst : ∀ t ∈ stA.1, P t)
    (hnew : ∀ n ev, P { name := n, confidence := 0.4, source := .SIC_MAPPING,
                        evidence := some ev, canonical_category := none }) :
    ∀ t ∈ (sicBroadStage mapping sic stA).1, P t := by
  rw [sicBroadStage.eq_def]
  cases h : tblLookup mapping (strTake sic 2 ++ "00") with
  | none => exact hst
  | some names =>
    show ∀ t ∈ (if strTake sic 2 ++ "00" ≠ sic then
        addUnseen stA names 0.4 ("SIC prefix " ++ strTake sic 2 ++ "xx")
      else stA).1, P t
    by_cases hb : strTake sic 2 ++ "00" ≠ sic
    · rw [if_pos hb]
      exact addUnseen_pred P names stA 0.4 _ hst (fun n => hnew n _)
    · rw [if_neg hb]
      exact hst

theorem sicCodeStage_conf01 (mapping : List (String × List String))
    (p : CompanyProfile) :
    ∀ t ∈ (sicCodeStage mapping p).1,
      0 ≤ t.confidence ∧ t.confidence ≤ 1 := by
  rw [sicCodeStage.eq_def]
  cases p.sic_code with
  | none => simp
  | some s =>
    by_cases h : s = ""
    · simp [h]
    · simp only [h, if_false]
      refine sicBroadStage_pred _ mapping _ _ ?_ (fun n ev => by norm_num)
      exact sicExactStage_pred _ mapping _ (fun n ev => by norm_num)

theorem sicExtract_conf01 (mapping : List (String × List String))
    (p : CompanyProfile) :
    ∀ t ∈ sicExtract mapping p, 0 ≤ t.confidence ∧ t.confidence ≤ 1 := by
  rw [sicExtract]
  refine sicTextStage_pred _ _ _ _ _ ?_ (fun n => by norm_num)
  refine sicTextStage_pred _ _ _ _ _ ?_ (fun n => by norm_num)
  exact sicCodeStage_conf01 mapping p

/-- Invariant of the SICMapper seen-set discipline: emitted names are
distinct and all recorded as seen. -/
def sicInv (st : List Theme × List String) : Prop :=
  (st.1.map Theme.name).Nodup ∧ ∀ x ∈ st.1.map Theme.name, x ∈ st.2

theorem addUnseen_inv (names : List String) :
    ∀ (st : List Theme × List String) (conf : ℚ) (ev : String),
      sicInv st → sicInv (addUnseen st names conf ev) := by
  induction names with
  | nil => intro st conf ev h; simpa [addUnseen] using h
  | cons n names ih =>
    intro st conf ev h
    rw [addUnseen, List.foldl_cons]
    by_cases hn : n ∈ st.2
    · rw [if_pos hn]; exact ih st conf ev h
    · rw [if_neg hn]
      apply ih
      constructor
      · rw [List.map_append]
        apply List.Nodup.append h.1 (by simp)
        intro x hx hx2
        simp only [List.map_cons, List.map_nil, List.mem_singleton] at hx2
        exact hn (hx2 ▸ h.2 x hx)
      · intro x hx
        rw [List.map_append] at hx
        rcases List.mem_append.1 hx with hx1 | hx1
        · exact List.mem_append.2 (Or.inl (h.2 x hx1))
        · simp only [List.map_cons, List.map_nil, List.mem_singleton] at hx1
          exact List.mem_append.2 (Or.inr (by simp [hx1]))

theorem sicTextStage_inv (st : List Theme × List String) (field : Option String)
    (conf : ℚ) (ev : String) (h : sicInv st) :
    sicInv (sicTextStage st field conf ev) := by
  rcases field with _ | s
  · exact h
  · rw [sicTextStage.eq_def]
    by_cases hs : s = ""
    · simpa [hs] using h
    · simp only [hs, if_false]
      exact addUnseen_inv _ st conf ev h

theorem sicExactStage_inv (mapping : List (String × List String)) (sic : String) :
    sicInv (sicExactStage mapping sic) := by
  rw [sicExactStage.eq_def]
  cases h : tblLookup mapping sic with
  | none => exact ⟨by simp, by simp⟩
  | some names => exact addUnseen_inv names ([], []) 0.65 _ ⟨by simp, by simp⟩

theorem sicBroadStage_inv (mapping : List (String × List String)) (sic : String)
    (stA : List Theme × List String) (h : sicInv stA) :
    sicInv (sicBroadStage mapping sic stA) := by
  rw [sicBroadStage.eq_def]
  cases hl : tblLookup mapping (strTake sic 2 ++ "00") with
  | none => exact h
  | some names =>
    show sicInv (if strTake sic 2 ++ "00" ≠ sic then
        addUnseen stA names 0.4 ("SIC prefix " ++ strTake sic 2 ++ "xx")
      else stA)
    by_cases hb : strTake sic 2 ++ "00" ≠ sic
    · rw [if_pos hb]; exact addUnseen_inv names stA 0.4 _ h
    · rw [if_neg hb]; exact h

theorem sicCodeStage_inv (mapping : List (String × List String))
    (p : CompanyProfile) : sicInv (sicCodeStage mapping p) := by
  rw [sicCodeStage.eq_def]
  cases p.sic_code with
  | none => exact ⟨by simp, by simp⟩
  | some s =>
    by_cases h : s = ""
    · simp only [h, if_true]
      exact ⟨by simp, by simp⟩
    · simp only [h, if_false]
      exact sicBroadStage_inv mapping _ _ (sicExactStage_inv mapping _)

theorem sicExtract_names_nodup (mapping : List (String × List String))
    (p : CompanyProfile) : ((sicExtract mapping p).map Theme.name).Nodup := by
  rw [sicExtract]
  exact (sicTextStage_inv _ _ _ _ (sicTextStage_inv _ _ _ _
    (sicCodeStage_inv mapping p))).1

theorem keywordThemesFor_conf01 (tbl : List (String × List KwPattern))
    (text : String) :
    ∀ t ∈ keywordThemesFor tbl text, 0 ≤ t.confidence ∧ t.confidence ≤ 1 := by
  intro t ht
  rw [keywordThemesFor] at ht
  obtain ⟨e, _, hsome⟩ := List.mem_filterMap.1 ht
  by_cases hc : 1 ≤ kwMatchCount e.2 text
  · rw [if_pos hc, Option.some_inj] at hsome
    rw [← hsome]
    show 0 ≤ kwConfidence (kwMatchCount e.2 text) text.length ∧ _
    rw [kwConfidence]
    apply pyRound3_min_mem01 _ _ (by norm_num) (by norm_num)
    have h1 : (0:ℚ) ≤ ((kwMatchCount e.2 text : ℚ) / ((text.length : ℚ) / 1000)) * (8/100) := by
      positivity
    have : (0.08 : ℚ) = 8/100 := by norm_num
    rw [this]
    linarith
  · rw [if_neg hc] at hsome
    exact absurd hsome (by simp)

theorem mem_sortThemesDesc {l : List Theme} {t : Theme} :
    t ∈ sortThemesDesc l ↔ t ∈ l := by
  rw [sortThemesDesc, List.mem_insertionSort]

theorem keywordExtract_conf01 (tbl : List (String × List KwPattern))
    (p : CompanyProfile) :
    ∀ t ∈ keywordExtract tbl p, 0 ≤ t.confidence ∧ t.confidence ≤ 1 := by
  rw [keywordExtract.eq_def]
  cases combinedKeywordText p with
  | none => intro t ht; exact absurd ht (List.not_mem_nil t)
  | some text =>
    intro t ht
    have ht2 : t ∈ sortThemesDesc (keywordThemesFor tbl text) := ht
    exact keywordThemesFor_conf01 tbl text t (mem_sortThemesDesc.1 ht2)

theorem socialExtract_conf01 (tbl : List (String × List KwPattern))
    (p : CompanyProfile) :
    ∀ t ∈ socialExtract tbl p, 0 ≤ t.confidence ∧ t.confidence ≤ 1 := by
  rw [socialExtract.eq_def]
  cases p.social_text with
  | none => intro t ht; exact absurd ht (List.not_mem_nil t)
  | some text =>
    by_cases hg : text = "" ∨ pyStrip text = ""
    · simp only [hg, if_true]
      intro t ht; exact absurd ht (List.not_mem_nil t)
    · simp only [hg, if_false]
      intro t ht
      obtain ⟨e, _, hsome⟩ := List.mem_filterMap.1 (mem_sortThemesDesc.1 ht)
      by_cases hc : 2 ≤ kwMatchCount e.2 text
      · rw [if_pos hc, Option.some_inj] at hsome
        rw [← hsome]
        show 0 ≤ socialConfidence (kwMatchCount e.2 text) text.length ∧ _
        rw [socialConfidence]
        apply pyRound3_min_mem01 _ _ (by norm_num) (by norm_num)
        have h1 : (0:ℚ) ≤ ((kwMatchCount e.2 text : ℚ) / ((text.length : ℚ) / 1000)) * (7/100) := by
          positivity
        have h2 : (0.07 : ℚ) = 7/100 := by norm_num
        rw [h2]
        linarith
      · rw [if_neg hc] at hsome
        exact absurd hsome (by simp)

theorem patentFromCounts_conf01 (counts : List (String × Nat)) (total : Nat) :
    ∀ t ∈ patentFromCounts counts total,
      0 ≤ t.confidence ∧ t.confidence ≤ 1 := by
  rw [patentFromCounts]
  by_cases h : counts = []
  · simp [h]
  · rw [if_neg h]
    intro t ht
    obtain ⟨e, _, heq⟩ := List.mem_map.1 ht
    rw [← heq]
    show 0 ≤ patentConfidence e.2 ((counts.map Prod.snd).foldl max 0) total ∧ _
    rw [patentConfidence]
    apply pyRound3_min_mem01 _ _ (by norm_num) (by norm_num)
    have h1 : (0:ℚ) ≤ ((e.2 : ℚ) / (((counts.map Prod.snd).foldl max 0 : Nat) : ℚ)) * (35/100) := by
      positivity
    have h2 : (0:ℚ) ≤ min (2/10) ((total : ℚ) / 500) :=
      le_min (by norm_num) (by positivity)
    have e1 : (0.35 : ℚ) = 35/100 := by norm_num
    have e2 : (0.2 : ℚ) = 2/10 := by norm_num
    rw [e1, e2]
    linarith

theorem patentExtract_conf01 (mapping : List (String × List String))
    (p : CompanyProfile) :
    ∀ t ∈ patentExtract mapping p, 0 ≤ t.confidence ∧ t.confidence ≤ 1 := by
  rw [patentExtract]
  by_cases h : p.patent_cpc_codes = []
  · simp [h]
  · rw [if_neg h]
    exact patentFromCounts_conf01 _ _

theorem newsFromCounts_conf01 (counts : List (String × Nat)) (total : Nat) :
    ∀ t ∈ newsFromCounts counts total,
      0 ≤ t.confidence ∧ t.confidence ≤ 1 := by
  rw [newsFromCounts]
  by_cases h : counts = []
  · simp [h]
  · rw [if_neg h]
    intro t ht
    obtain ⟨e, _, heq⟩ := List.mem_map.1 ht
    rw [← heq]
    show 0 ≤ newsConfidence e.2 ((counts.map Prod.snd).foldl max 0) total ∧ _
    rw [newsConfidence]
    apply pyRound3_min_mem01 _ _ (by norm_num) (by norm_num)
    have h1 : (0:ℚ) ≤ ((e.2 : ℚ) / (((counts.map Prod.snd).foldl max 0 : Nat) : ℚ)) * (3/10) := by
      positivity
    have h2 : (0:ℚ) ≤ min (15/100) ((e.2 : ℚ) / (total : ℚ)) :=
      le_min (by norm_num) (by positivity)
    have e1 : (0.3 : ℚ) = 3/10 := by norm_num
    have e2 : (0.15 : ℚ) = 15/100 := by norm_num
    rw [e1, e2]
    linarith

theorem newsExtract_conf01 (mapping : List (String × String))
    (p : CompanyProfile) :
    ∀ t ∈ newsExtract mapping p, 0 ≤ t.confidence ∧ t.confidence ≤ 1 := by
  rw [newsExtract]
  by_cases h : p.news_themes = []
  · simp [h]
  · rw [if_neg h]
    exact newsFromCounts_conf01 _ _

theorem embeddingExtract_conf01 (fmt : ℚ → String)
    (matched : List (String × ℚ))
    (hm : ∀ e ∈ matched, 0 ≤ e.2 ∧ e.2 ≤ 1) :
    ∀ t ∈ embeddingExtract fmt matched,
      0 ≤ t.confidence ∧ t.confidence ≤ 1 := by
  intro t ht
  rw [embeddingExtract] at ht
  obtain ⟨e, he, heq⟩ := List.mem_map.1 (mem_sortThemesDesc.1 ht)
  rw [← heq]
  exact pyRound3_mem01 e.2 (hm e he).1 (hm e he).2

theorem llmParseThemes_conf01 (entries : List LLMRawEntry) :
    ∀ t ∈ llmParseThemes entries, 0 ≤ t.confidence ∧ t.confidence ≤ 1 := by
  intro t ht
  rw [llmParseThemes] at ht
  obtain ⟨e, _, hsome⟩ := List.mem_filterMap.1 ht
  rcases e with ⟨_ | s, _ | c⟩ <;> simp only at hsome
  · exact absurd hsome (by simp)
  · exact absurd hsome (by simp)
  · exact absurd hsome (by simp)
  · by_cases hk : s ≠ "" ∧ c ≠ 0
    · rw [if_pos hk, Option.some_inj] at hsome
      rw [← hsome]
      refine ⟨le_min zero_le_one (le_max_left 0 c), min_le_left 1 _⟩
    · rw [if_neg hk] at hsome
      exact absurd hsome (by simp)

theorem mergeAndRank_conf01 (catTbl : List (String × String)) (ts : List Theme)
    (hts : ∀ t ∈ ts, 0 ≤ t.confidence ∧ t.confidence ≤ 1) :
    ∀ m ∈ mergeAndRank catTbl ts, 0 ≤ m.confidence ∧ m.confidence ≤ 1 := by
  intro m hm
  obtain ⟨k, hk, _, t, rest, hg, rfl⟩ := mem_mergeGroups.1 (mem_mergeAndRank.1 hm)
  rw [mkMergedTheme_confidence]
  have hne : (t :: rest) ≠ [] := List.cons_ne_nil t rest
  have hmem : ∀ u ∈ (t :: rest), 0 ≤ u.confidence ∧ u.confidence ≤ 1 := by
    intro u hu
    rw [← hg] at hu
    exact hts u (mem_groupOf.1 hu).1
  have havg := avgConfidence_mem01 hne hmem
  have hbon := sourceBonus_nonneg hne
  apply pyRound3_mem01
  · exact le_min zero_le_one (by linarith)
  · exact min_le_left 1 _

/-- C1 (amended): for every surviving group, the merged Theme's confidence
equals round3(min(1, W + B)) where W is the source-weighted average of the
group's confidences and B = min(0.15, 0.05*(k-1)) for k distinct sources;
consequently it never exceeds min(1, W + 0.05*(k-1)) by more than the
0.0005 the rounding can add. -/
theorem C1_merged_confidence (catTbl : List (String × String))
    (ts : List Theme) (k : String)
    (hk : k ∈ groupKeys ts) (hb : k ∉ BLOCKED_THEMES) :
    ∃ m ∈ mergeAndRank catTbl ts, m.name = k ∧
      m.confidence =
        pyRound3 (min 1 (weightedSum (groupOf ts k) / weightedCount (groupOf ts k) +
          min MAX_MULTI_SOURCE_BONUS
            (MULTI_SOURCE_BONUS *
              (((distinctSources (groupOf ts k)).length : ℚ) - 1)))) ∧
      m.confidence ≤
        min 1 (weightedSum (groupOf ts k) / weightedCount (groupOf ts k) +
          MULTI_SOURCE_BONUS *
            (((distinctSources (groupOf ts k)).length : ℚ) - 1)) + 1/2000 := by
  have hne := groupOf_ne_nil hk
  obtain ⟨t, rest, hg⟩ := List.exists_cons_of_ne_nil hne
  have hmem : mkMergedTheme catTbl k t rest ∈ mergeAndRank catTbl ts :=
    mem_mergeAndRank.2 (mem_mergeGroups.2 ⟨k, hk, hb, t, rest, hg, rfl⟩)
  have hconf : (mkMergedTheme catTbl k t rest).confidence =
      pyRound3 (min 1 (avgConfidence (groupOf ts k) + sourceBonus (groupOf ts k))) := by
    rw [mkMergedTheme_confidence, hg]
  have havg : avgConfidence (groupOf ts k) =
      weightedSum (groupOf ts k) / weightedCount (groupOf ts k) :=
    avgConfidence_eq hne
  have hsb : sourceBonus (groupOf ts k) =
      min MAX_MULTI_SOURCE_BONUS
        (MULTI_SOURCE_BONUS *
          (((distinctSources (groupOf ts k)).length : ℚ) - 1)) := rfl
  refine ⟨mkMergedTheme catTbl k t rest, hmem, mkMergedTheme_name catTbl k t rest, ?_, ?_⟩
  · rw [hconf, havg, hsb]
  · rw [hconf, havg, hsb]
    have h1 := pyRound3_le_add (min 1
      (weightedSum (groupOf ts k) / weightedCount (groupOf ts k) +
        min MAX_MULTI_SOURCE_BONUS
          (MULTI_SOURCE_BONUS *
            (((distinctSources (groupOf ts k)).length : ℚ) - 1))))
    have h2 : min MAX_MULTI_SOURCE_BONUS
        (MULTI_SOURCE_BONUS *
          (((distinctSources (groupOf ts k)).length : ℚ) - 1)) ≤
        MULTI_SOURCE_BONUS *
          (((distinctSources (groupOf ts k)).length : ℚ) - 1) :=
      min_le_right _ _
    have h3 : min 1 (weightedSum (groupOf ts k) / weightedCount (groupOf ts k) +
        min MAX_MULTI_SOURCE_BONUS
          (MULTI_SOURCE_BONUS *
            (((distinctSources (groupOf ts k)).length : ℚ) - 1))) ≤
        min 1 (weightedSum (groupOf ts k) / weightedCount (groupOf ts k) +
          MULTI_SOURCE_BONUS *
            (((distinctSources (groupOf ts k)).length : ℚ) - 1)) :=
      min_le_min (le_refl 1) (by linarith)
    linarith

theorem C1_witness :
    ∃ m ∈ mergeAndRank catTbl0 tsSolar, m.name = "solar" ∧
      m.confidence =
        pyRound3 (min 1 (weightedSum (groupOf tsSolar "solar") /
          weightedCount (groupOf tsSolar "solar") +
          min MAX_MULTI_SOURCE_BONUS
            (MULTI_SOURCE_BONUS *
              (((distinctSources (groupOf tsSolar "solar")).length : ℚ) - 1)))) ∧
      m.confidence ≤
        min 1 (weightedSum (groupOf tsSolar "solar") /
          weightedCount (groupOf tsSolar "solar") +
          MULTI_SOURCE_BONUS *
            (((distinctSources (groupOf tsSolar "solar")).length : ℚ) - 1)) + 1/2000 :=
  C1_merged_confidence catTbl0 tsSolar "solar" (by decide) (by decide)

/-- C1 (counterexample to the claim as stated): with the spec's own merge
example (KEYWORD_NLP at 0.67 and EMBEDDING at 0.72 for the same theme) the
stored merged confidence is 0.746, while min(1, W + B) is 2461/3300 =
0.74575..., so the stored confidence does not equal min(1, W + B): the code
rounds it to three decimals. -/
theorem C1_counterexample :
    (mergeAndRank catTbl0 tsC1).map Theme.confidence = [0.746] ∧
    (0.746 : ℚ) ≠
      min 1 (weightedSum (groupOf tsC1 "artificial intelligence") /
        weightedCount (groupOf tsC1 "artificial intelligence") +
        min MAX_MULTI_SOURCE_BONUS
          (MULTI_SOURCE_BONUS *
            (((distinctSources (groupOf tsC1 "artificial intelligence")).length : ℚ) - 1))) := by
  constructor
  · decide
  · decide

/-- C2: the ensemble result is the descending-confidence-sorted merged list
truncated to max_themes, so it never exceeds max_themes entries and keeps
exactly the top max_themes by confidence when more are available. -/
theorem C2_truncation (catTbl : List (String × String)) (maxThemes : Nat)
    (p : CompanyProfile) (outcomes : List ExtractorOutcome) :
    (ensembleExtract catTbl maxThemes p outcomes).themes.length ≤ maxThemes ∧
    (ensembleExtract catTbl maxThemes p outcomes).themes =
      (mergeAndRank catTbl (collectThemes outcomes)).take maxThemes ∧
    (ensembleExtract catTbl maxThemes p outcomes).themes.length =
      min maxThemes (mergeAndRank catTbl (collectThemes outcomes)).length ∧
    (mergeAndRank catTbl (collectThemes outcomes)).Pairwise themeDesc ∧
    ∀ t ∈ (ensembleExtract catTbl maxThemes p outcomes).themes,
      ∀ u ∈ (mergeAndRank catTbl (collectThemes outcomes)).drop maxThemes,
        u.confidence ≤ t.confidence := by
  have heq : (ensembleExtract catTbl maxThemes p outcomes).themes =
      (mergeAndRank catTbl (collectThemes outcomes)).take maxThemes := rfl
  have hsort := mergeAndRank_sorted catTbl (collectThemes outcomes)
  refine ⟨?_, heq, ?_, hsort, ?_⟩
  · rw [heq, List.length_take]
    exact min_le_left _ _
  · rw [heq, List.length_take]
  · intro t ht u hu
    rw [heq] at ht
    have hsplit := hsort
    rw [← List.take_append_drop maxThemes
      (mergeAndRank catTbl (collectThemes outcomes))] at hsplit
    exact (List.pairwise_append.1 hsplit).2.2 t ht u hu

theorem C2_witness :
    ({ name := "solar", confidence := 0.8, source := .NEWS,
       evidence := some "news", canonical_category := none } : Theme).confidence ≤
      ({ name := "artificial intelligence", confidence := 0.9, source := .LLM,
         evidence := some "llm", canonical_category := none } : Theme).confidence :=
  (C2_truncation catTbl0 1 profileW outcomesC2).2.2.2.2
    { name := "artificial intelligence", confidence := 0.9, source := .LLM,
      evidence := some "llm", canonical_category := none } (by decide)
    { name := "solar", confidence := 0.8, source := .NEWS,
      evidence := some "news", canonical_category := none } (by decide)

/-- C3: a raw theme whose normalized name is blocked never appears in the
merged ranked result, whatever its sources or confidences. -/
theorem C3_blocked_never_in_result (catTbl : List (String × String))
    (ts : List Theme) (t : Theme) (ht : t ∈ ts)
    (hb : normalizeTheme t.name ∈ BLOCKED_THEMES) :
    normalizeTheme t.name ∉ (mergeAndRank catTbl ts).map Theme.name := by
  intro hmem
  obtain ⟨m, hm, hname⟩ := List.mem_map.1 hmem
  obtain ⟨k, _, hkb, t2, rest, _, rfl⟩ := mem_mergeGroups.1 (mem_mergeAndRank.1 hm)
  rw [mkMergedTheme_name] at hname
  exact hkb (hname ▸ hb)

theorem C3_witness :
    normalizeTheme "Technology" ∉ (mergeAndRank catTbl0 tsC3).map Theme.name :=
  C3_blocked_never_in_result catTbl0 tsC3
    { name := "Technology", confidence := 0.9, source := .LLM }
    (by decide) (by decide)

/-- C5: an exception raised inside one extractor is absorbed by the
ensemble loop: the run behaves exactly as if that extractor had returned
no themes, the other extractors still contribute, and a ThemeResult is
always produced (exceptions are modelled as Except outcomes; the
try/except of the loop is the error branch contributing nothing). -/
theorem C5_extractor_failure_isolated (catTbl : List (String × String))
    (maxThemes : Nat) (p : CompanyProfile)
    (pre post : List ExtractorOutcome) (msg : String) :
    ensembleExtract catTbl maxThemes p (pre ++ Except.error msg :: post) =
      ensembleExtract catTbl maxThemes p (pre ++ Except.ok [] :: post) := by
  have h : collectThemes (pre ++ Except.error msg :: post) =
      collectThemes (pre ++ Except.ok [] :: post) := by
    rw [collectThemes, collectThemes, List.foldl_append, List.foldl_append,
      List.foldl_cons, List.foldl_cons]
    simp
  rw [ensembleExtract, ensembleExtract, h]

/-- C4: every Theme produced by any extractor, and by the ensemble merge,
has confidence in the unit interval; the embedding matcher needs its
similarity scores in the unit interval and the merge needs its raw inputs
in the unit interval (which the extractors guarantee). -/
theorem C4_confidence_bounds :
    (∀ mapping p, allConf01 (sicExtract mapping p) = true) ∧
    (∀ tbl p, allConf01 (keywordExtract tbl p) = true) ∧
    (∀ tbl p, allConf01 (socialExtract tbl p) = true) ∧
    (∀ mapping p, allConf01 (patentExtract mapping p) = true) ∧
    (∀ mapping p, allConf01 (newsExtract mapping p) = true) ∧
    (∀ fmt matched, (∀ e ∈ matched, 0 ≤ e.2 ∧ e.2 ≤ 1) →
      allConf01 (embeddingExtract fmt matched) = true) ∧
    (∀ entries, allConf01 (llmParseThemes entries) = true) ∧
    (∀ catTbl ts, allConf01 ts = true →
      allConf01 (mergeAndRank catTbl ts) = true) := by
  refine ⟨?_, ?_, ?_, ?_, ?_, ?_, ?_, ?_⟩
  · intro mapping p; exact allConf01_iff.2 (sicExtract_conf01 mapping p)
  · intro tbl p; exact allConf01_iff.2 (keywordExtract_conf01 tbl p)
  · intro tbl p; exact allConf01_iff.2 (socialExtract_conf01 tbl p)
  · intro mapping p; exact allConf01_iff.2 (patentExtract_conf01 mapping p)
  · intro mapping p; exact allConf01_iff.2 (newsExtract_conf01 mapping p)
  · intro fmt matched hm
    exact allConf01_iff.2 (embeddingExtract_conf01 fmt matched hm)
  · intro entries; exact allConf01_iff.2 (llmParseThemes_conf01 entries)
  · intro catTbl ts hts
    exact allConf01_iff.2 (mergeAndRank_conf01 catTbl ts (allConf01_iff.1 hts))

theorem C4_witness :
    allConf01 (embeddingExtract (fun _ => "")
      [("artificial intelligence", 0.8)]) = true ∧
    allConf01 (mergeAndRank catTbl0 tsC1) = true :=
  ⟨C4_confidence_bounds.2.2.2.2.2.1 (fun _ => "")
      [("artificial intelligence", 0.8)] (by decide),
   C4_confidence_bounds.2.2.2.2.2.2.2 catTbl0 tsC1 (by decide)⟩

/-- Lemma: when the padded 2-digit prefix equals the exact code, the
broad-match stage of SICMapper is the identity (the source's
sic_prefix != sic guard). -/
theorem sicBroadStage_same (mapping : List (String × List String))
    (sic : String) (stA : List Theme × List String)
    (h : strTake sic 2 ++ "00" = sic) :
    sicBroadStage mapping sic stA = stA := by
  rw [sicBroadStage.eq_def]
  cases tblLookup mapping (strTake sic 2 ++ "00") with
  | none => rfl
  | some names =>
    show (if strTake sic 2 ++ "00" ≠ sic then
        addUnseen stA names 0.4 ("SIC prefix " ++ strTake sic 2 ++ "xx")
      else stA) = stA
    rw [if_neg (not_not.2 h)]

/-- C6: SICMapper emits each theme name at most once; on the scenario
profile (sic_code 7372 mapped to software alone, no 7300 entry, sector
Technology, industry Software - Infrastructure, nothing else) it emits
exactly (software, 0.65), (technology, 0.50),
(software - infrastructure, 0.55), all tagged SIC_MAPPING; when the table
also maps the padded prefix 7300, the broad stage emits its not-yet-seen
names at confidence 0.40 (and the seen-set suppresses the duplicate);
and when the padded 2-digit prefix equals the exact code, no theme is
ever emitted at confidence 0.40. -/
theorem C6_sic_mapper :
    (∀ mapping p, ((sicExtract mapping p).map Theme.name).Nodup) ∧
    (∀ mapping, tblLookup mapping "7372" = some ["software"] →
      tblLookup mapping "7300" = none →
      (sicExtract mapping profileC6).map (fun t => (t.name, t.confidence, t.source)) =
        [("software", (0.65 : ℚ), ExtractionMethod.SIC_MAPPING),
         ("technology", 0.5, ExtractionMethod.SIC_MAPPING),
         ("software - infrastructure", 0.55, ExtractionMethod.SIC_MAPPING)]) ∧
    (∀ mapping, tblLookup mapping "7372" = some ["software"] →
      tblLookup mapping "7300" = some ["enterprise software", "software"] →
      (sicExtract mapping profileC6).map (fun t => (t.name, t.confidence, t.source)) =
        [("software", (0.65 : ℚ), ExtractionMethod.SIC_MAPPING),
         ("enterprise software", 0.4, ExtractionMethod.SIC_MAPPING),
         ("technology", 0.5, ExtractionMethod.SIC_MAPPING),
         ("software - infrastructure", 0.55, ExtractionMethod.SIC_MAPPING)]) ∧
    (∀ mapping p s, p.sic_code = some s →
      strTake (pyStrip s) 2 ++ "00" = pyStrip s →
      ∀ t ∈ sicExtract mapping p, t.confidence ≠ 0.4) := by
  refine ⟨sicExtract_names_nodup, ?_, ?_, ?_⟩
  · intro mapping h1 h2
    have hcode : sicCodeStage mapping profileC6 =
        ([{ name := "software", confidence := 0.65, source := .SIC_MAPPING,
            evidence := some "SIC code 7372", canonical_category := none }],
         ["software"]) := by
      rw [sicCodeStage.eq_def]
      have e0 : profileC6.sic_code = some "7372" := rfl
      rw [e0]
      show (if ("7372" : String) = "" then (([], []) : List Theme × List String)
        else sicBroadStage mapping (pyStrip "7372")
          (sicExactStage mapping (pyStrip "7372"))) = _
      rw [if_neg (by decide : ¬("7372" : String) = "")]
      have e1 : pyStrip "7372" = "7372" := by decide
      rw [e1, sicBroadStage.eq_def]
      have e3 : strTake "7372" 2 ++ "00" = "7300" := by decide
      rw [e3, h2, sicExactStage.eq_def, h1]
      decide
    rw [sicExtract, hcode]
    decide
  · intro mapping h1 h2
    have hcode : sicCodeStage mapping profileC6 =
        ([{ name := "software", confidence := 0.65, source := .SIC_MAPPING,
            evidence := some "SIC code 7372", canonical_category := none },
          { name := "enterprise software", confidence := 0.4,
            source := .SIC_MAPPING, evidence := some "SIC prefix 73xx",
            canonical_category := none }],
         ["software", "enterprise software"]) := by
      rw [sicCodeStage.eq_def]
      have e0 : profileC6.sic_code = some "7372" := rfl
      rw [e0]
      show (if ("7372" : String) = "" then (([], []) : List Theme × List String)
        else sicBroadStage mapping (pyStrip "7372")
          (sicExactStage mapping (pyStrip "7372"))) = _
      rw [if_neg (by decide : ¬("7372" : String) = "")]
      have e1 : pyStrip "7372" = "7372" := by decide
      rw [e1, sicBroadStage.eq_def]
      have e3 : strTake "7372" 2 ++ "00" = "7300" := by decide
      rw [e3, h2, sicExactStage.eq_def, h1]
      decide
    rw [sicExtract, hcode]
    decide
  · intro mapping p s hsc heq
    rw [sicExtract]
    refine sicTextStage_pred _ _ _ _ _ ?_ (fun n => by norm_num)
    refine sicTextStage_pred _ _ _ _ _ ?_ (fun n => by norm_num)
    rw [sicCodeStage.eq_def, hsc]
    show ∀ t ∈ (if s = "" then (([], []) : List Theme × List String)
      else sicBroadStage mapping (pyStrip s)
        (sicExactStage mapping (pyStrip s))).1, t.confidence ≠ 0.4
    by_cases hs : s = ""
    · rw [if_pos hs]
      intro t ht
      exact absurd ht (List.not_mem_nil t)
    · rw [if_neg hs, sicBroadStage_same mapping _ _ heq]
      exact sicExactStage_pred _ mapping _ (fun n ev => by norm_num)

theorem C6_witness :
    ((sicExtract sicTblC6 profileC6).map (fun t => (t.name, t.confidence, t.source)) =
      [("software", (0.65 : ℚ), ExtractionMethod.SIC_MAPPING),
       ("technology", 0.5, ExtractionMethod.SIC_MAPPING),
       ("software - infrastructure", 0.55, ExtractionMethod.SIC_MAPPING)]) ∧
    ((sicExtract sicTblC6b profileC6).map (fun t => (t.name, t.confidence, t.source)) =
      [("software", (0.65 : ℚ), ExtractionMethod.SIC_MAPPING),
       ("enterprise software", 0.4, ExtractionMethod.SIC_MAPPING),
       ("technology", 0.5, ExtractionMethod.SIC_MAPPING),
       ("software - infrastructure", 0.55, ExtractionMethod.SIC_MAPPING)]) ∧
    ({ name := "enterprise software", confidence := 0.65,
       source := ExtractionMethod.SIC_MAPPING, evidence := some "SIC code 7300",
       canonical_category := none } : Theme).confidence ≠ 0.4 :=
  ⟨C6_sic_mapper.2.1 sicTblC6 (by decide) (by decide),
   C6_sic_mapper.2.2.1 sicTblC6b (by decide) (by decide),
   C6_sic_mapper.2.2.2 sicTblC6b profileC6b "7300" rfl (by decide)
     { name := "enterprise software", confidence := 0.65, source := .SIC_MAPPING,
       evidence := some "SIC code 7300", canonical_category := none } (by decide)⟩

/-- C7: with a non-empty combined text, a table entry is emitted exactly
when its patterns reach one total match, with confidence
round3(min(0.9, 0.35 + density*0.08)) for density = matches per 1000
characters; on the 500-character scenario text containing "artificial
intelligence" once and "machine learning" once, the emitted confidence of
the "artificial intelligence" theme is 0.67. -/
theorem C7_keyword_extractor :
    (∀ tbl p text name pats,
      combinedKeywordText p = some text →
      (name, pats) ∈ tbl →
      1 ≤ kwMatchCount pats text →
      ∃ t ∈ keywordExtract tbl p, t.name = name ∧
        t.confidence = kwConfidence (kwMatchCount pats text) text.length) ∧
    (∀ tbl p t, t ∈ keywordExtract tbl p →
      ∃ text, combinedKeywordText p = some text ∧
        ∃ e ∈ tbl, t.name = e.1 ∧ 1 ≤ kwMatchCount e.2 text ∧
          t.confidence = kwConfidence (kwMatchCount e.2 text) text.length) ∧
    ((keywordExtract kwTblC7 profileC7).map (fun t => (t.name, t.confidence)) =
      [("artificial intelligence", (0.67 : ℚ))]) := by
  refine ⟨?_, ?_, by decide⟩
  · intro tbl p text name pats htext htbl hcnt
    rw [keywordExtract.eq_def, htext]
    refine ⟨{ name := name,
              confidence := kwConfidence (kwMatchCount pats text) text.length,
              source := .KEYWORD_NLP,
              evidence := kwFirstContext pats text }, ?_, rfl, rfl⟩
    show _ ∈ sortThemesDesc (keywordThemesFor tbl text)
    rw [mem_sortThemesDesc, keywordThemesFor, List.mem_filterMap]
    exact ⟨(name, pats), htbl, by rw [if_pos hcnt]⟩
  · intro tbl p t ht
    rw [keywordExtract.eq_def] at ht
    cases htext : combinedKeywordText p with
    | none =>
      rw [htext] at ht
      exact absurd ht (List.not_mem_nil t)
    | some text =>
      rw [htext] at ht
      refine ⟨text, rfl, ?_⟩
      have ht2 : t ∈ keywordThemesFor tbl text := by
        have : t ∈ sortThemesDesc (keywordThemesFor tbl text) := ht
        exact mem_sortThemesDesc.1 this
      obtain ⟨e, he, hsome⟩ := List.mem_filterMap.1 ht2
      by_cases hc : 1 ≤ kwMatchCount e.2 text
      · rw [if_pos hc, Option.some_inj] at hsome
        exact ⟨e, he, by rw [← hsome], hc, by rw [← hsome]⟩
      · rw [if_neg hc] at hsome
        exact absurd hsome (by simp)

theorem C7_witness :
    ∃ t ∈ keywordExtract kwTblC7 profileC7, t.name = "artificial intelligence" ∧
      t.confidence = kwConfidence
        (kwMatchCount [litPat "artificial intelligence", litPat "machine learning"] descC7)
        descC7.length :=
  C7_keyword_extractor.1 kwTblC7 profileC7 descC7 "artificial intelligence"
    [litPat "artificial intelligence", litPat "machine learning"]
    (by decide) (List.mem_singleton.mpr rfl) (by decide)

/-- C9: the LLM parser keeps exactly the entries with a truthy theme and a
truthy (nonzero) confidence, clamps kept confidences into the unit
interval, and a kept Theme has confidence 0 only when the parsed
confidence was strictly negative. -/
theorem C9_llm_falsy_filter_and_clamp (entries : List LLMRawEntry) :
    (llmParseThemes entries).length = (entries.filter llmKept).length ∧
    ∀ t ∈ llmParseThemes entries,
      ∃ e ∈ entries, ∃ s c, e.theme = some s ∧ e.confidence = some c ∧
        s ≠ "" ∧ c ≠ 0 ∧ t.name = pyLower (pyStrip s) ∧
        t.confidence = min 1 (max 0 c) ∧ (t.confidence = 0 → c < 0) := by
  constructor
  · induction entries with
    | nil => rfl
    | cons e rest ih =>
      rcases e with ⟨th, co⟩
      rcases th with _ | s <;> rcases co with _ | c
      · simpa [llmParseThemes, List.filterMap_cons, List.filter_cons, llmKept]
          using ih
      · simpa [llmParseThemes, List.filterMap_cons, List.filter_cons, llmKept]
          using ih
      · simpa [llmParseThemes, List.filterMap_cons, List.filter_cons, llmKept]
          using ih
      · by_cases hk : s ≠ "" ∧ c ≠ 0
        · simpa [llmParseThemes, List.filterMap_cons, List.filter_cons, llmKept,
            hk.1, hk.2] using ih
        · have hk2 : llmKept ⟨some s, some c⟩ = false := by
            rw [llmKept]
            rcases not_and_or.1 hk with hs | hc
            · simp [not_not.1 hs]
            · simp [not_not.1 hc]
          simpa [llmParseThemes, List.filterMap_cons, List.filter_cons, hk, hk2]
            using ih
  · intro t ht
    rw [llmParseThemes] at ht
    obtain ⟨e, he, hsome⟩ := List.mem_filterMap.1 ht
    rcases e with ⟨th, co⟩
    rcases th with _ | s <;> rcases co with _ | c <;> simp only at hsome
    · exact absurd hsome (by simp)
    · exact absurd hsome (by simp)
    · exact absurd hsome (by simp)
    · by_cases hk : s ≠ "" ∧ c ≠ 0
      · rw [if_pos hk, Option.some_inj] at hsome
        refine ⟨⟨some s, some c⟩, he, s, c, rfl, rfl, hk.1, hk.2, by rw [← hsome],
          by rw [← hsome], ?_⟩
        intro h0
        rw [← hsome] at h0
        have hmax : max 0 c = 0 := by
          rcases min_cases 1 (max 0 c) with ⟨hm, hle⟩ | ⟨hm, hle⟩
          · rw [hm] at h0; norm_num at h0
          · rw [hm] at h0; exact h0
        have hc0 : c ≤ 0 := by
          have := le_max_right 0 c
          rw [hmax] at this
          exact this
        exact lt_of_le_of_ne hc0 hk.2
      · rw [if_neg hk] at hsome
        exact absurd hsome (by simp)

theorem C9_witness :
    ∃ e ∈ llmEntriesC9, ∃ s c, e.theme = some s ∧ e.confidence = some c ∧
      s ≠ "" ∧ c ≠ 0 ∧ llmThemeC9.name = pyLower (pyStrip s) ∧
      llmThemeC9.confidence = min 1 (max 0 c) ∧
      (llmThemeC9.confidence = 0 → c < 0) :=
  (C9_llm_falsy_filter_and_clamp llmEntriesC9).2 llmThemeC9 (by decide)

/-- C10: the news extractor's divisor len(news_titles)-or-1 is always at
least one (so the coverage term never divides by zero), equals one exactly
on an empty title list, and the whole confidence computation goes through
on a profile with mapped news themes but no titles. -/
theorem C10_news_no_zero_division :
    (∀ p, 1 ≤ totalArticles p) ∧
    (∀ p, p.news_titles = [] → totalArticles p = 1) ∧
    ((newsExtract newsTblC10 profileC10).map (fun t => (t.name, t.confidence)) =
      [("artificial intelligence", (0.7 : ℚ))]) := by
  refine ⟨?_, ?_, by decide⟩
  · intro p
    rw [totalArticles]
    by_cases h : p.news_titles.length = 0
    · rw [if_pos h]
    · rw [if_neg h]
      omega
  · intro p h
    rw [totalArticles, h]
    simp

theorem C10_witness : totalArticles profileC10 = 1 :=
  C10_news_no_zero_division.2.1 profileC10 rfl

/-- C8: normalize is idempotent on every taxonomy entry and every alias key
and alias value, and any input whose cleaned form matches no alias is
returned as the stripped lower-cased string unchanged. -/
theorem C8_normalize_idempotent_passthrough :
    (∀ x ∈ ALL_THEMES ++ ALIASES.map Prod.fst ++ ALIASES.map Prod.snd,
      normalizeTheme (normalizeTheme x) = normalizeTheme x) ∧
    (∀ s, aliasLookup (pyLower (pyStrip s)) = none →
      normalizeTheme s = pyLower (pyStrip s)) := by
  constructor
  · decide
  · intro s h
    rw [normalizeTheme, h]
    exact ite_self _

theorem C8_witness :
    normalizeTheme " Quantum Computing " = pyLower (pyStrip " Quantum Computing ") :=
  C8_normalize_idempotent_passthrough.2 " Quantum Computing " (by decide)
